import Mathlib

/-!
Verification development for the appointment scheduling engine of the
mentalhealth backend (Express + Mongoose routes).

Modelling conventions:
* Times of day are minutes since midnight (`Nat`).  The routes persist times
  as zero-padded "HH:MM" strings and compare them with MongoDB string
  comparison; on zero-padded strings lexicographic order coincides with the
  numeric order of the parsed minutes, so those comparisons are modelled on
  the numeric value.  The exact string the booking routes persist for a
  computed end time is modelled by `fmtTime` (the template literal with
  padStart in src/src/routes/appointment.ts lines 43-45).
* Mongo documents live in a `List` in insertion order; `findOne` /
  `findOneAndUpdate` act on the first matching element (`updateFirst`).
* Monetary values are rationals (`ℚ`); the amounts the claims exercise are
  exactly representable, so the rational model agrees with the JS numbers.
-/

namespace MH

/-- Appointment status enum of the Appointment schema, as used by the routes
in src/src/routes/appointment.ts and src/src/routes/therapist.ts. -/
inductive Status where
  | pending
  | confirmed
  | cancelled
  | completed
  | noShow
  deriving DecidableEq, Repr

/-- Session type enum ('individual' | 'group' | 'couple'). -/
inductive SessionType where
  | individual
  | group
  | couple
  deriving DecidableEq, Repr

/-- Session mode enum ('video' | 'audio' | 'chat' | 'in-person'). -/
inductive SessionMode where
  | video
  | audio
  | chat
  | inPerson
  deriving DecidableEq, Repr

/-- A calendar day (the `date` field stores a Date at a fixed time of day;
ordering of such Dates is the lexicographic order on year, month, day). -/
structure Day where
  y : Nat
  m : Nat
  d : Nat
  deriving DecidableEq, Repr

/-- MongoDB `$gte`/`$lt` comparison on stored dates: chronological order,
i.e. lexicographic on (year, month, day). -/
def Day.leb (a b : Day) : Bool :=
  decide (a.y < b.y) ||
    (decide (a.y = b.y) &&
      (decide (a.m < b.m) || (decide (a.m = b.m) && decide (a.d ≤ b.d))))

/-- The slice of the Therapist document the booking engine reads
(src/src/routes/appointment.ts lines 37-40 and 65). -/
structure Therapist where
  id : Nat
  hourlyRate : ℚ
  isActive : Bool
  isVerified : Bool
  deriving DecidableEq, Repr

/-- A persisted Appointment document (fields the scheduling engine touches). -/
structure Appointment where
  id : Nat
  user : Nat
  therapist : Nat
  date : Day
  startTime : Nat
  endTime : Nat
  endTimeStr : String
  duration : Nat
  sessionType : SessionType
  sessionMode : SessionMode
  notes : Option String
  amount : ℚ
  status : Status
  rating : Option Nat
  review : Option String
  cancellationReason : Option String
  deriving DecidableEq, Repr

/-- Status is in { pending, confirmed }, the set used by every conflict and
cancellation filter (`status: { $in: ['pending', 'confirmed'] }`). -/
def isActiveStatus (s : Status) : Bool :=
  s == Status.pending || s == Status.confirmed

/-- JS `n.toString().padStart(2, '0')`. -/
def pad2 (n : Nat) : String :=
  if (toString n).length < 2 then "0" ++ toString n else toString n

/-- The end-time string built by the booking routes from minutes since
midnight: Math.floor(m / 60) padded, ':', m % 60 padded. -/
def fmtTime (m : Nat) : String :=
  pad2 (m / 60) ++ ":" ++ pad2 (m % 60)

/-- The appointment ledger: persisted documents in insertion order, plus a
counter supplying fresh document ids. -/
structure Ledger where
  appts : List Appointment
  nextId : Nat
  deriving DecidableEq, Repr

def Ledger.init : Ledger := { appts := [], nextId := 0 }

/-- A booking request as it reaches POST /book after JSON parsing; the start
time arrives as an HH:MM string, carried here as hour and minute fields. -/
structure BookReq where
  userId : Nat
  therapistId : Nat
  date : Day
  startH : Nat
  startM : Nat
  duration : Nat
  sessionType : SessionType
  sessionMode : SessionMode
  notes : Option String
  deriving DecidableEq, Repr

/-- Errors of the booking route: express-validator failures (400), therapist
missing / inactive / unverified (404), slot conflict (400). -/
inductive BookErr where
  | validationError
  | providerUnavailable
  | slotConflict
  deriving DecidableEq, Repr

/-- Errors of the single-appointment routes: express-validator failures (400)
and the uniform 404 used both for absence and for foreign records. -/
inductive ApiErr where
  | validationError
  | notFound
  deriving DecidableEq, Repr

/-- The express-validator chain of POST /book: startTime matches HH:MM with
hour 0-23 and minute 0-59, duration is an integer in [30, 180], optional
notes at most 1000 characters.  (sessionType / sessionMode are well-typed
here by construction.) -/
def validBookReq (r : BookReq) : Bool :=
  decide (r.startH ≤ 23) && decide (r.startM ≤ 59) &&
    decide (30 ≤ r.duration) && decide (r.duration ≤ 180) &&
    (match r.notes with
     | none => true
     | some n => decide (n.length ≤ 1000))

/-- The conflict filter of POST /book (src/src/routes/appointment.ts lines
48-58): same therapist, same date, status in { pending, confirmed }, and
existing.startTime < new.endTime AND existing.endTime > new.startTime. -/
def conflictsWith (tid : Nat) (d : Day) (startMin endMin : Nat)
    (a : Appointment) : Bool :=
  a.therapist == tid && a.date == d && isActiveStatus a.status &&
    decide (a.startTime < endMin) && decide (a.endTime > startMin)

/-- POST /book (src/src/routes/appointment.ts lines 10-93; the chatbot route
POST /book-appointment at src/src/routes/chatbot.ts lines 559-644 is the
same algorithm): validate, look the therapist up and require it active and
verified, compute the end time, reject on conflict, compute the amount, and
persist a new pending appointment at the end of the ledger. -/
def book (ts : List Therapist) (st : Ledger) (r : BookReq) :
    Except BookErr (Ledger × Appointment) :=
  if ¬ validBookReq r then .error .validationError
  else
    match ts.find? (fun t => t.id == r.therapistId) with
    | none => .error .providerUnavailable
    | some t =>
      if ¬ (t.isActive && t.isVerified) then .error .providerUnavailable
      else
        let startMin := r.startH * 60 + r.startM
        let endMin := startMin + r.duration
        if st.appts.any (conflictsWith r.therapistId r.date startMin endMin)
        then .error .slotConflict
        else
          let amount := t.hourlyRate / 60 * (r.duration : ℚ)
          let a : Appointment :=
            { id := st.nextId
              user := r.userId
              therapist := r.therapistId
              date := r.date
              startTime := startMin
              endTime := endMin
              endTimeStr := fmtTime endMin
              duration := r.duration
              sessionType := r.sessionType
              sessionMode := r.sessionMode
              notes := r.notes
              amount := amount
              status := Status.pending
              rating := none
              review := none
              cancellationReason := none }
          .ok ({ appts := st.appts ++ [a], nextId := st.nextId + 1 }, a)

/-- Update the first element satisfying p, like Mongo findOneAndUpdate or a
findOne-then-save on the first match. -/
def updateFirst (p : Appointment → Bool) (f : Appointment → Appointment) :
    List Appointment → List Appointment
  | [] => []
  | a :: rest =>
    if p a then f a :: rest else a :: updateFirst p f rest

/-- Filter of PUT /:id/cancel (src/src/routes/appointment.ts lines 163-168):
the document id, the owning user, and status in { pending, confirmed }. -/
def cancelMatch (i u : Nat) (a : Appointment) : Bool :=
  a.id == i && a.user == u && isActiveStatus a.status

/-- PUT /:id/cancel (src/src/routes/appointment.ts lines 161-181): a
findOneAndUpdate setting status to cancelled; when no document matches the
route answers 404 and nothing is written. -/
def cancel (st : Ledger) (i u : Nat) : Except ApiErr Ledger :=
  if st.appts.any (cancelMatch i u) then
    .ok { st with
          appts := updateFirst (cancelMatch i u)
            (fun a => { a with status := Status.cancelled }) st.appts }
  else .error .notFound

/-- Filter of PUT /appointments/:id/status (src/src/routes/therapist.ts lines
121-124): the document id and the acting therapist; the current status is
not consulted. -/
def statusMatch (i actor : Nat) (a : Appointment) : Bool :=
  a.id == i && a.therapist == actor

/-- The express-validator chain of PUT /appointments/:id/status: the new
status is one of confirmed / cancelled / completed / no-show (never
pending), optional notes at most 1000 and cancellationReason at most 500
characters. -/
def validSetStatus (s : Status) (notes cr : Option String) : Bool :=
  !(s == Status.pending) &&
    (match notes with
     | none => true
     | some n => decide (n.length ≤ 1000)) &&
    (match cr with
     | none => true
     | some c => decide (c.length ≤ 500))

/-- The document mutation of PUT /appointments/:id/status (src/src/routes/
therapist.ts lines 130-134): status is overwritten unconditionally; notes
and cancellationReason are set only when provided. -/
def applyStatusUpdate (s : Status) (notes cr : Option String)
    (a : Appointment) : Appointment :=
  { a with
    status := s
    notes := match notes with
             | some n => some n
             | none => a.notes
    cancellationReason := match cr with
                          | some c => some c
                          | none => a.cancellationReason }

/-- PUT /appointments/:id/status (src/src/routes/therapist.ts lines 107-140;
PUT /:id/status in src/src/routes/appointment.ts lines 129-158 is the same
update without the notes fields): find the appointment by id and acting
therapist, 404 when absent, otherwise overwrite the status with no check of
the current status. -/
def setStatus (st : Ledger) (i actor : Nat) (s : Status)
    (notes cr : Option String) : Except ApiErr Ledger :=
  if ¬ validSetStatus s notes cr then .error .validationError
  else if st.appts.any (statusMatch i actor) then
    .ok { st with
          appts := updateFirst (statusMatch i actor)
            (applyStatusUpdate s notes cr) st.appts }
  else .error .notFound

/-- Filter of POST /appointments/:id/review (src/src/routes/chatbot.ts lines
538-542): the document id, the owning user, and status completed. -/
def reviewMatch (i u : Nat) (a : Appointment) : Bool :=
  a.id == i && a.user == u && a.status == Status.completed

/-- Optional review text of at most 1000 characters. -/
def reviewTextOk : Option String → Bool
  | none => true
  | some v => decide (v.length ≤ 1000)

/-- The express-validator chain of POST /appointments/:id/review: rating is
an integer in [1, 5], the optional review at most 1000 characters. -/
def validReview (rating : Nat) (rv : Option String) : Bool :=
  decide (1 ≤ rating) && decide (rating ≤ 5) && reviewTextOk rv

/-- POST /appointments/:id/review (src/src/routes/chatbot.ts lines 526-557):
rating must be an integer in [1, 5] and the optional review at most 1000
characters; the matched completed appointment gets rating and review set,
its status untouched. -/
def submitReview (st : Ledger) (i u rating : Nat) (rv : Option String) :
    Except ApiErr Ledger :=
  if ¬ validReview rating rv then .error .validationError
  else if st.appts.any (reviewMatch i u) then
    .ok { st with
          appts := updateFirst (reviewMatch i u)
            (fun a => { a with rating := some rating, review := rv })
            st.appts }
  else .error .notFound

/-- GET /available-slots/:therapistId (src/src/routes/appointment.ts lines
184-227): 404 when the therapist does not exist; otherwise enumerate the
09:00-18:00 hourly grid and keep each slot whose start time is not the
start time of a pending/confirmed appointment of that therapist and date.
Slots are pairs (startTime, endTime) in minutes. -/
def availableSlots (ts : List Therapist) (st : Ledger) (tid : Nat)
    (d : Day) : Except ApiErr (List (Nat × Nat)) :=
  match ts.find? (fun t => t.id == tid) with
  | none => .error .notFound
  | some _ =>
    let bookedStarts :=
      (st.appts.filter
        (fun a => a.therapist == tid && a.date == d &&
          isActiveStatus a.status)).map (fun a => a.startTime)
    .ok (((List.range' 9 9).filter
        (fun h => !(bookedStarts.contains (h * 60)))).map
        (fun h => (h * 60, (h + 1) * 60)))

/-! ### Operations, reachability, and the no-double-booking invariant -/

/-- One request against the appointment ledger. -/
inductive Op where
  | book (r : BookReq)
  | setStatus (i actor : Nat) (s : Status) (notes cr : Option String)
  | cancel (i u : Nat)
  | review (i u rating : Nat) (rv : Option String)
  deriving DecidableEq, Repr

/-- The ledger after one request: the success state, or the unchanged ledger
when the route answered an error (no error branch writes). -/
def Ledger.apply (ts : List Therapist) (st : Ledger) : Op → Ledger
  | Op.book r =>
    match book ts st r with
    | .ok x => x.1
    | .error _ => st
  | Op.setStatus i actor s notes cr =>
    match setStatus st i actor s notes cr with
    | .ok st2 => st2
    | .error _ => st
  | Op.cancel i u =>
    match cancel st i u with
    | .ok st2 => st2
    | .error _ => st
  | Op.review i u rating rv =>
    match submitReview st i u rating rv with
    | .ok st2 => st2
    | .error _ => st

/-- States reachable from the empty ledger by any sequence of book,
setStatus, cancel and submitReview requests. -/
inductive Reachable (ts : List Therapist) : Ledger → Prop where
  | init : Reachable ts Ledger.init
  | step {st : Ledger} (op : Op) : Reachable ts st →
      Reachable ts (st.apply ts op)

/-- Guard for the amended reachability: the provider status-set is only
applied when the matched appointment is still pending or confirmed. -/
def SafeOp (st : Ledger) : Op → Prop
  | Op.setStatus i actor _ _ _ =>
      ∀ a ∈ st.appts, statusMatch i actor a = true →
        isActiveStatus a.status = true
  | _ => True

/-- States reachable when every setStatus request respects the lifecycle
precondition (its target still pending or confirmed). -/
inductive ReachableSafe (ts : List Therapist) : Ledger → Prop where
  | init : ReachableSafe ts Ledger.init
  | step {st : Ledger} (op : Op) : ReachableSafe ts st → SafeOp st op →
      ReachableSafe ts (st.apply ts op)

/-- Half-open interval overlap as the booking conflict filter implements it:
aStart < bEnd AND aEnd > bStart. -/
def overlaps (aS aE bS bE : Nat) : Prop := aS < bE ∧ aE > bS

/-- The overlap formula exactly as claim C2 words it: true iff
aStart < bEnd AND bEnd > aStart (the second conjunct restates the first,
so this predicate ignores aEnd). -/
def overlapsClaimC2 (aS aE bS bE : Nat) : Prop := aS < bE ∧ bE > aS

/-- Claim C1's relation between two persisted appointments: if they share
therapist and date and both are pending/confirmed, their [start, end)
intervals do not overlap. -/
def Separated (a b : Appointment) : Prop :=
  a.therapist = b.therapist → a.date = b.date →
    isActiveStatus a.status = true → isActiveStatus b.status = true →
      ¬ overlaps a.startTime a.endTime b.startTime b.endTime

/-- The no-double-booking invariant over the whole ledger. -/
def NoDoubleBook (st : Ledger) : Prop := st.appts.Pairwise Separated

/-! ### Analytics -/

/-- The period query parameter of the analytics routes. -/
inductive Period where
  | week
  | month
  | quarter
  | year
  deriving DecidableEq, Repr

/-- A provider-analytics bucket label (labelFormat, src/src/routes/
therapist.ts lines 205-210): week/month label by month and day ("Oct 5" —
the year is dropped), quarter/year by month name ("October"). -/
inductive BucketKey where
  | dayKey (m d : Nat)
  | monthKey (m : Nat)
  deriving DecidableEq, Repr

def bucketLabel (p : Period) (d : Day) : BucketKey :=
  match p with
  | Period.week | Period.month => BucketKey.dayKey d.m d.d
  | Period.quarter | Period.year => BucketKey.monthKey d.m

/-- new Date(label).getTime() on a year-less label resolves within a single
fixed year, so the sort comparator orders labels lexicographically by
(month, day); realized by an order-preserving numeric key (day ≤ 31). -/
def BucketKey.time : BucketKey → Nat
  | BucketKey.dayKey m d => m * 100 + d
  | BucketKey.monthKey m => m * 100 + 1

/-- JS Map.get(k), with a default for a missing key. -/
def mapGetD {K V : Type} [BEq K] (m : List (K × V)) (k : K) (v0 : V) : V :=
  match m.find? (fun p => p.1 == k) with
  | some p => p.2
  | none => v0

/-- JS Map.set(k, v): update in place when the key exists (keeping insertion
order), append otherwise. -/
def mapSet {K V : Type} [BEq K] : List (K × V) → K → V → List (K × V)
  | [], k, v => [(k, v)]
  | (k1, v1) :: rest, k, v =>
    if k1 == k then (k1, v) :: rest else (k1, v1) :: mapSet rest k v

/-- The appointments GET /analytics loads: this therapist, date ≥ startDate
(src/src/routes/therapist.ts lines 212-215). -/
def inWindow (tid : Nat) (start : Day) (a : Appointment) : Bool :=
  a.therapist == tid && start.leb a.date

def apptsInRange (l : List Appointment) (tid : Nat) (start : Day) :
    List Appointment :=
  l.filter (inWindow tid start)

/-- earningsData (src/src/routes/therapist.ts lines 218-227): for each
completed appointment in range, add its amount into its bucket. -/
def buildEarnings (p : Period) (l : List Appointment) :
    List (BucketKey × ℚ) :=
  l.foldl
    (fun m a =>
      if a.status == Status.completed then
        mapSet m (bucketLabel p a.date)
          (mapGetD m (bucketLabel p a.date) 0 + a.amount)
      else m) []

/-- appointmentsData (same loop): count every appointment in range,
regardless of status. -/
def buildApptCounts (p : Period) (l : List Appointment) :
    List (BucketKey × Nat) :=
  l.foldl
    (fun m a =>
      mapSet m (bucketLabel p a.date)
        (mapGetD m (bucketLabel p a.date) 0 + 1)) []

/-- A labels/data pair as the route serializes each map. -/
structure Series (V : Type) where
  labels : List BucketKey
  data : List V
  deriving DecidableEq, Repr

/-- Sort of the map entries, [...map.entries()].sort by bucket time
ascending, then split into parallel labels and data arrays. -/
def toSeries {V : Type} (m : List (BucketKey × V)) : Series V :=
  let s := m.insertionSort (fun x y => x.1.time ≤ y.1.time)
  { labels := s.map (fun x => x.1), data := s.map (fun x => x.2) }

/-- Distinct client ids of a list of appointments ([...new Set(...)]; only
membership and cardinality of the result are consumed). -/
def clientIdsOf (l : List Appointment) : List Nat :=
  (l.map (fun a => a.user)).dedup

/-- Minimum of a bag of dates, as Mongo $min folds a group. -/
def minDay (x : Day) (ds : List Day) : Day :=
  ds.foldl (fun acc d => if d.leb acc then d else acc) x

/-- The $min date of all appointments of client c, over the whole ledger. -/
def firstApptDay (l : List Appointment) (c : Nat) : Option Day :=
  match (l.filter (fun a => a.user == c)).map (fun a => a.date) with
  | [] => none
  | d :: ds => some (minDay d ds)

/-- The $gte startDate test applied to the $min date of client c's group
(false when the client has no appointment at all). -/
def minDateOk (l : List Appointment) (c : Nat) (s : Day) : Bool :=
  match firstApptDay l c with
  | some d => s.leb d
  | none => false

/-- The new-client aggregation of GET /analytics (src/src/routes/
therapist.ts lines 239-245): group ALL appointments of each in-window
client by user — with no therapist filter — take the $min date, and keep
the clients whose minimum is ≥ startDate. -/
def newClients (l : List Appointment) (tid : Nat) (start : Day) :
    List Nat :=
  (clientIdsOf (apptsInRange l tid start)).filter
    (fun c => minDateOk l c start)

/-- New-client count exactly as claim C8 words it: in-window clients whose
earliest-ever appointment WITH THIS PROVIDER falls inside the window. -/
def newClientsPerClaimC8 (l : List Appointment) (tid : Nat) (start : Day) :
    List Nat :=
  (clientIdsOf (apptsInRange l tid start)).filter
    (fun c => minDateOk (l.filter (fun a => a.therapist == tid)) c start)

/-- The clientStats block of the analytics response (src/src/routes/
therapist.ts lines 291-296). -/
structure ClientStats where
  totalClients : Nat
  newClients : Nat
  returningClients : Nat
  deriving DecidableEq, Repr

def clientStats (l : List Appointment) (tid : Nat) (start : Day) :
    ClientStats :=
  let ids := clientIdsOf (apptsInRange l tid start)
  let nw := (newClients l tid start).length
  { totalClients := ids.length
    newClients := nw
    returningClients := ids.length - nw }

/-- The provider-scope analytics report (the pieces the claims exercise). -/
structure ProviderAnalytics where
  earnings : Series ℚ
  appointments : Series Nat
  clients : ClientStats
  deriving Repr

/-- GET /analytics (src/src/routes/therapist.ts lines 180-306), with the
window start already derived from period and now. -/
def providerAnalytics (l : List Appointment) (tid : Nat) (start : Day)
    (p : Period) : ProviderAnalytics :=
  let inR := apptsInRange l tid start
  { earnings := toSeries (buildEarnings p inR)
    appointments := toSeries (buildApptCounts p inR)
    clients := clientStats l tid start }

/-- Grouping keys of getRevenueData, built by $dateToString: '%Y-%m-%d' for
week/month, '%Y-%m' otherwise; zero-padded, so Mongo's $sort on the key
string is the chronological order realized by AggKey.val below. -/
inductive AggKey where
  | ymd (y m d : Nat)
  | ym (y m : Nat)
  deriving DecidableEq, Repr

def aggKeyOf (p : Period) (d : Day) : AggKey :=
  match p with
  | Period.week | Period.month => AggKey.ymd d.y d.m d.d
  | Period.quarter | Period.year => AggKey.ym d.y d.m

def AggKey.val : AggKey → Nat
  | AggKey.ymd y m d => (y * 100 + m) * 100 + d
  | AggKey.ym y m => (y * 100 + m) * 100

/-- The platform-wide revenue series of the admin analytics route. -/
structure RevenueData where
  labels : List AggKey
  revenue : List ℚ
  appointments : List Nat
  deriving Repr

/-- getRevenueData (src/unnamed/part_000 lines 254-266): group completed
appointments with date ≥ startDate by key, $sum the amounts and count the
documents per key, and sort by key ascending. -/
def getRevenueData (l : List Appointment) (start : Day) (p : Period) :
    RevenueData :=
  let inR := l.filter
    (fun a => a.status == Status.completed && start.leb a.date)
  let totals := inR.foldl
    (fun m a =>
      mapSet m (aggKeyOf p a.date)
        (mapGetD m (aggKeyOf p a.date) (0 : ℚ) + a.amount)) []
  let counts := inR.foldl
    (fun m a =>
      mapSet m (aggKeyOf p a.date)
        (mapGetD m (aggKeyOf p a.date) (0 : Nat) + 1)) []
  let st := totals.insertionSort (fun x y => x.1.val ≤ y.1.val)
  let sc := counts.insertionSort (fun x y => x.1.val ≤ y.1.val)
  { labels := st.map (fun x => x.1)
    revenue := st.map (fun x => x.2)
    appointments := sc.map (fun x => x.2) }

/-! ### Decidability and basic facts -/

instance (a b : Appointment) : Decidable (Separated a b) := by
  unfold Separated overlaps
  infer_instance

instance : DecidableRel Separated := fun _ _ => inferInstance

instance (st : Ledger) : Decidable (NoDoubleBook st) := by
  unfold NoDoubleBook
  infer_instance

/-- A successful booking establishes: the request was valid, the conflict
check came back empty, the new appointment is appended at the end, and its
fields are computed from the request and the therapist document. -/
theorem book_ok_spec {ts : List Therapist} {st : Ledger} {r : BookReq}
    {st2 : Ledger} {a : Appointment}
    (h : book ts st r = Except.ok (st2, a)) :
    validBookReq r = true ∧
    st.appts.any (conflictsWith r.therapistId r.date (r.startH * 60 + r.startM)
      (r.startH * 60 + r.startM + r.duration)) = false ∧
    st2.appts = st.appts ++ [a] ∧
    a.user = r.userId ∧ a.therapist = r.therapistId ∧ a.date = r.date ∧
    a.startTime = r.startH * 60 + r.startM ∧
    a.endTime = r.startH * 60 + r.startM + r.duration ∧
    a.endTimeStr = fmtTime (r.startH * 60 + r.startM + r.duration) ∧
    a.duration = r.duration ∧ a.status = Status.pending ∧
    ∃ t, ts.find? (fun x => x.id == r.therapistId) = some t ∧
      t.isActive = true ∧ t.isVerified = true ∧
      a.amount = t.hourlyRate / 60 * (r.duration : ℚ) := by
  unfold book at h
  split at h
  · exact absurd h (by simp)
  next hval =>
    rw [Bool.not_eq_true] at hval
    rw [Bool.not_eq_false] at hval
    split at h
    · exact absurd h (by simp)
    next t hfind =>
      split at h
      · exact absurd h (by simp)
      next hav =>
        rw [Bool.not_eq_true, Bool.not_eq_false, Bool.and_eq_true] at hav
        dsimp only at h
        split at h
        · exact absurd h (by simp)
        next hconf =>
          rw [Bool.not_eq_true] at hconf
          simp only [Except.ok.injEq, Prod.mk.injEq] at h
          obtain ⟨hst2, ha⟩ := h
          subst hst2
          subst ha
          refine ⟨hval, hconf, rfl, rfl, rfl, rfl, rfl, rfl, rfl, rfl, rfl,
            t, hfind, hav.1, hav.2, rfl⟩

/-- A failing booking writes nothing. -/
theorem book_err_spec {ts : List Therapist} {st : Ledger} {r : BookReq}
    {e : BookErr} (h : book ts st r = Except.error e) :
    st.apply ts (Op.book r) = st := by
  simp [Ledger.apply, h]

/-- Shape of a successful client cancellation: some document matched, and
the first match got its status set to cancelled. -/
theorem cancel_ok_shape {st : Ledger} {i u : Nat} {st2 : Ledger}
    (h : cancel st i u = Except.ok st2) :
    st.appts.any (cancelMatch i u) = true ∧
    st2.appts =
      updateFirst (cancelMatch i u)
        (fun a => { a with status := Status.cancelled }) st.appts ∧
    st2.nextId = st.nextId := by
  unfold cancel at h
  split at h
  next hc =>
    refine ⟨hc, ?_, ?_⟩ <;> (injection h with h2; rw [← h2])
  · exact absurd h (by simp)

/-- Shape of a successful provider status-set: the input validated, some
document matched by id and therapist, and the first match was overwritten. -/
theorem setStatus_ok_shape {st : Ledger} {i actor : Nat} {s : Status}
    {notes cr : Option String} {st2 : Ledger}
    (h : setStatus st i actor s notes cr = Except.ok st2) :
    validSetStatus s notes cr = true ∧
    st.appts.any (statusMatch i actor) = true ∧
    st2.appts =
      updateFirst (statusMatch i actor)
        (applyStatusUpdate s notes cr) st.appts ∧
    st2.nextId = st.nextId := by
  unfold setStatus at h
  split at h
  · exact absurd h (by simp)
  next hv =>
    rw [Bool.not_eq_true, Bool.not_eq_false] at hv
    split at h
    next hm =>
      refine ⟨hv, hm, ?_, ?_⟩ <;> (injection h with h2; rw [← h2])
    · exact absurd h (by simp)

/-- Shape of a successful review submission: the rating validated, some
completed owned document matched, and the first match got rating and review
set (and nothing else, in particular not its status). -/
theorem submitReview_ok_shape {st : Ledger} {i u rating : Nat}
    {rv : Option String} {st2 : Ledger}
    (h : submitReview st i u rating rv = Except.ok st2) :
    validReview rating rv = true ∧
    st.appts.any (reviewMatch i u) = true ∧
    st2.appts =
      updateFirst (reviewMatch i u)
        (fun a => { a with rating := some rating, review := rv }) st.appts ∧
    st2.nextId = st.nextId := by
  unfold submitReview at h
  split at h
  · exact absurd h (by simp)
  next hv =>
    rw [Bool.not_eq_true, Bool.not_eq_false] at hv
    split at h
    next hm =>
      refine ⟨hv, hm, ?_, ?_⟩ <;> (injection h with h2; rw [← h2])
    · exact absurd h (by simp)

/-- updateFirst leaves the prefix of non-matches alone and rewrites exactly
the first match. -/
theorem updateFirst_append (p : Appointment → Bool)
    (f : Appointment → Appointment) (l1 : List Appointment)
    (a : Appointment) (l2 : List Appointment)
    (h1 : ∀ b ∈ l1, p b = false) (ha : p a = true) :
    updateFirst p f (l1 ++ a :: l2) = l1 ++ f a :: l2 := by
  induction l1 with
  | nil => simp [updateFirst, ha]
  | cons b l1 ih =>
    have hb : p b = false := h1 b (by simp)
    simp only [List.cons_append, updateFirst, hb]
    simp only [Bool.false_eq_true, if_false, List.cons.injEq, true_and]
    exact ih (fun c hc => h1 c (by simp [hc]))

/-- Every element of updateFirst p f l is an element of l or the f-image of
a matching element of l. -/
theorem mem_updateFirst {p : Appointment → Bool}
    {f : Appointment → Appointment} {l : List Appointment} {x : Appointment}
    (hx : x ∈ updateFirst p f l) :
    x ∈ l ∨ ∃ b ∈ l, p b = true ∧ x = f b := by
  induction l with
  | nil => simp [updateFirst] at hx
  | cons a rest ih =>
    by_cases ha : p a = true
    · simp only [updateFirst, ha, if_true] at hx
      rcases List.mem_cons.mp hx with hx2 | hx2
      · exact Or.inr ⟨a, by simp, ha, hx2⟩
      · exact Or.inl (by simp [hx2])
    · rw [Bool.not_eq_true] at ha
      simp only [updateFirst, ha, Bool.false_eq_true, if_false] at hx
      rcases List.mem_cons.mp hx with hx2 | hx2
      · exact Or.inl (by simp [hx2])
      · rcases ih hx2 with h | ⟨b, hb, hpb, hxb⟩
        · exact Or.inl (by simp [h])
        · exact Or.inr ⟨b, by simp [hb], hpb, hxb⟩

/-! ### Preservation of the no-double-booking invariant -/

/-- Separated only looks at therapist, date, interval and activity, so it
transports along an update that preserves the slot and does not activate. -/
theorem Separated.congr_left {a a2 b : Appointment} (h : Separated a b)
    (ht : a2.therapist = a.therapist) (hd : a2.date = a.date)
    (hs : a2.startTime = a.startTime) (he : a2.endTime = a.endTime)
    (hact : isActiveStatus a2.status = true → isActiveStatus a.status = true) :
    Separated a2 b := by
  intro h1 h2 h3 h4
  rw [hs, he]
  exact h (ht ▸ h1) (hd ▸ h2) (hact h3) h4

/-- Symmetric variant of Separated.congr_left for the right argument. -/
theorem Separated.congr_right {a b b2 : Appointment} (h : Separated a b)
    (ht : b2.therapist = b.therapist) (hd : b2.date = b.date)
    (hs : b2.startTime = b.startTime) (he : b2.endTime = b.endTime)
    (hact : isActiveStatus b2.status = true → isActiveStatus b.status = true) :
    Separated a b2 := by
  intro h1 h2 h3 h4
  rw [hs, he]
  exact h (h1.trans ht) (h2.trans hd) h3 (hact h4)

/-- Updating the first match preserves pairwise separation, provided the
update keeps the slot (therapist, date, interval) and never turns an
inactive appointment into an active one. -/
theorem pairwise_updateFirst {p : Appointment → Bool}
    {f : Appointment → Appointment} {l : List Appointment}
    (hf : ∀ a ∈ l, p a = true →
      (f a).therapist = a.therapist ∧ (f a).date = a.date ∧
      (f a).startTime = a.startTime ∧ (f a).endTime = a.endTime ∧
      (isActiveStatus (f a).status = true → isActiveStatus a.status = true))
    (hl : l.Pairwise Separated) :
    (updateFirst p f l).Pairwise Separated := by
  induction l with
  | nil => simp [updateFirst]
  | cons a rest ih =>
    rcases List.pairwise_cons.mp hl with ⟨ha, hrest⟩
    by_cases hp : p a = true
    · simp only [updateFirst, hp, if_true]
      refine List.pairwise_cons.mpr ⟨?_, hrest⟩
      intro b hb
      obtain ⟨ht, hd, hs, he, hact⟩ := hf a (by simp) hp
      exact (ha b hb).congr_left ht hd hs he hact
    · rw [Bool.not_eq_true] at hp
      simp only [updateFirst, hp, Bool.false_eq_true, if_false]
      refine List.pairwise_cons.mpr
        ⟨?_, ih (fun x hx hpx => hf x (by simp [hx]) hpx) hrest⟩
      intro b hb
      rcases mem_updateFirst hb with h | ⟨c, hc, hpc, hbc⟩
      · exact ha b h
      · subst hbc
        obtain ⟨ht, hd, hs, he, hact⟩ := hf c (by simp [hc]) hpc
        exact (ha c hc).congr_right ht hd hs he hact

/-- A successful booking preserves the invariant: the new appointment passed
the conflict filter against every persisted active appointment of its
therapist and date. -/
theorem noDoubleBook_book {ts : List Therapist} {st : Ledger} {r : BookReq}
    {st2 : Ledger} {a : Appointment}
    (hb : book ts st r = Except.ok (st2, a)) (hinv : NoDoubleBook st) :
    NoDoubleBook st2 := by
  obtain ⟨-, hconf, happ, -, hth, hdate, hstart, hend, -, -, -, -⟩ :=
    book_ok_spec hb
  unfold NoDoubleBook
  rw [happ, List.pairwise_append]
  refine ⟨hinv, by simp, ?_⟩
  intro x hx y hy
  have hy2 : y = a := by simpa using hy
  subst hy2
  intro h1 h2 h3 _h4
  have hx3 : ¬ (conflictsWith r.therapistId r.date (r.startH * 60 + r.startM)
      (r.startH * 60 + r.startM + r.duration) x = true) := by
    intro hc
    have h5 : st.appts.any (conflictsWith r.therapistId r.date
        (r.startH * 60 + r.startM) (r.startH * 60 + r.startM + r.duration))
        = true := List.any_eq_true.mpr ⟨x, hx, hc⟩
    rw [hconf] at h5
    exact Bool.false_ne_true h5
  simp only [conflictsWith, Bool.and_eq_true, beq_iff_eq,
    decide_eq_true_eq] at hx3
  intro hov
  simp only [overlaps] at hov
  obtain ⟨ho1, ho2⟩ := hov
  rw [hstart] at ho2
  rw [hend] at ho1
  exact hx3 ⟨⟨⟨⟨h1.trans hth, h2.trans hdate⟩, h3⟩, ho1⟩, ho2⟩

/-- Every state reachable with lifecycle-respecting status-sets satisfies
the no-double-booking invariant. -/
theorem reachableSafe_inv {ts : List Therapist} {st : Ledger}
    (h : ReachableSafe ts st) : NoDoubleBook st := by
  induction h with
  | init => simp [NoDoubleBook, Ledger.init]
  | step op hr hsafe ih =>
    cases op with
    | book r =>
      dsimp only [Ledger.apply]
      split
      next x hb => exact noDoubleBook_book hb ih
      next => exact ih
    | setStatus i actor s notes cr =>
      dsimp only [Ledger.apply]
      split
      next st2 hs2 =>
        obtain ⟨-, -, happ, -⟩ := setStatus_ok_shape hs2
        unfold NoDoubleBook
        rw [happ]
        refine pairwise_updateFirst ?_ ih
        intro a ha hp
        exact ⟨rfl, rfl, rfl, rfl, fun _ => hsafe a ha hp⟩
      next => exact ih
    | cancel i u =>
      dsimp only [Ledger.apply]
      split
      next st2 hc2 =>
        obtain ⟨-, happ, -⟩ := cancel_ok_shape hc2
        unfold NoDoubleBook
        rw [happ]
        refine pairwise_updateFirst ?_ ih
        intro a _ha _hp
        refine ⟨rfl, rfl, rfl, rfl, ?_⟩
        intro hact
        simp [isActiveStatus] at hact
      next => exact ih
    | review i u rating rv =>
      dsimp only [Ledger.apply]
      split
      next st2 hr2 =>
        obtain ⟨-, -, happ, -⟩ := submitReview_ok_shape hr2
        unfold NoDoubleBook
        rw [happ]
        refine pairwise_updateFirst ?_ ih
        intro a _ha _hp
        exact ⟨rfl, rfl, rfl, rfl, fun h2 => h2⟩
      next => exact ih

/-! ### Match-filter decompositions and concrete fixtures -/

theorem cancelMatch_iff (i u : Nat) (a : Appointment) :
    cancelMatch i u a = true ↔
      a.id = i ∧ a.user = u ∧
        (a.status = Status.pending ∨ a.status = Status.confirmed) := by
  simp [cancelMatch, isActiveStatus, and_assoc]

theorem statusMatch_iff (i actor : Nat) (a : Appointment) :
    statusMatch i actor a = true ↔ a.id = i ∧ a.therapist = actor := by
  simp [statusMatch]

theorem reviewMatch_iff (i u : Nat) (a : Appointment) :
    reviewMatch i u a = true ↔
      a.id = i ∧ a.user = u ∧ a.status = Status.completed := by
  simp [reviewMatch, and_assoc]

theorem conflictsWith_iff (tid : Nat) (d : Day) (s e : Nat)
    (a : Appointment) :
    conflictsWith tid d s e a = true ↔
      a.therapist = tid ∧ a.date = d ∧
        (a.status = Status.pending ∨ a.status = Status.confirmed) ∧
        overlaps a.startTime a.endTime s e := by
  simp [conflictsWith, isActiveStatus, overlaps, and_assoc]

/-- The one active verified therapist of the worked examples. -/
def ther1 : Therapist :=
  { id := 1, hourlyRate := 90, isActive := true, isVerified := true }

def ts0 : List Therapist := [ther1]

def d0 : Day := { y := 2025, m := 10, d := 6 }

/-- A booking request by client 7 with therapist 1 on d0: hour, minute,
duration. -/
def mkReq (h mi dur : Nat) : BookReq :=
  { userId := 7, therapistId := 1, date := d0, startH := h, startM := mi,
    duration := dur, sessionType := SessionType.individual,
    sessionMode := SessionMode.video, notes := none }

/-- The ledger after booking [09:00, 10:00). -/
def st1 : Ledger := Ledger.init.apply ts0 (Op.book (mkReq 9 0 60))

/-- The persisted appointment that booking creates in st1. -/
def bookedAppt : Appointment :=
  { id := 0, user := 7, therapist := 1, date := d0, startTime := 540,
    endTime := 600, endTimeStr := fmtTime 600, duration := 60,
    sessionType := SessionType.individual, sessionMode := SessionMode.video,
    notes := none, amount := (90 : ℚ) / 60 * ((60 : ℕ) : ℚ),
    status := Status.pending, rating := none, review := none,
    cancellationReason := none }

/-- Book [09:00, 10:00); cancel it through the provider status-set; book the
same slot again; then set the first, cancelled appointment back to
confirmed. -/
def stBad : Ledger :=
  (((Ledger.init.apply ts0 (Op.book (mkReq 9 0 60))).apply ts0
      (Op.setStatus 0 1 Status.cancelled none none)).apply ts0
      (Op.book (mkReq 9 0 60))).apply ts0
      (Op.setStatus 0 1 Status.confirmed none none)

/-- A persisted appointment of client 7 with therapist 1 on d0 at
[09:00, 10:00), with the given id and status. -/
def fixtureAppt (i : Nat) (s : Status) : Appointment :=
  { id := i, user := 7, therapist := 1, date := d0, startTime := 540,
    endTime := 600, endTimeStr := "10:00", duration := 60,
    sessionType := SessionType.individual, sessionMode := SessionMode.video,
    notes := none, amount := 90, status := s, rating := none,
    review := none, cancellationReason := none }

def stPending : Ledger := { appts := [fixtureAppt 0 Status.pending], nextId := 1 }

def stCancelled : Ledger := { appts := [fixtureAppt 0 Status.cancelled], nextId := 1 }

def stCompleted : Ledger := { appts := [fixtureAppt 0 Status.completed], nextId := 1 }

/-! ### Claim C1 -/

/-- C1 counterexample: a state reachable by book, setStatus, book, setStatus
(book [09:00, 10:00); provider sets it cancelled; book the freed slot;
provider sets the first appointment back to confirmed) holds two confirmed
appointments of therapist 1 on the same date with identical [540, 600)
intervals, so the claimed invariant fails on a reachable state. -/
theorem C1_counterexample : Reachable ts0 stBad ∧ ¬ NoDoubleBook stBad :=
  ⟨Reachable.step _ (Reachable.step _ (Reachable.step _
      (Reachable.step _ Reachable.init))),
    by decide⟩

/-- C1 (amended): any two persisted appointments with the same provider and
date that are both pending/confirmed have non-overlapping half-open
[startTime, endTime) intervals, in every state reachable via book, cancel,
submitReview, and setStatus requests that are only applied to appointments
still pending or confirmed (an unrestricted setStatus can set a cancelled
appointment back to confirmed over a re-booked slot, breaking the
invariant, as the counterexample shows). -/
theorem C1_no_double_booking {ts : List Therapist} {st : Ledger}
    (h : ReachableSafe ts st) : NoDoubleBook st :=
  reachableSafe_inv h

/-- C1 witness: the invariant theorem applied to a concrete safely-reached
state, one booked appointment. -/
theorem C1_no_double_booking_witness :
    ReachableSafe ts0 st1 ∧ NoDoubleBook st1 := by
  have hr : ReachableSafe ts0 st1 :=
    ReachableSafe.step _ ReachableSafe.init trivial
  exact ⟨hr, C1_no_double_booking hr⟩

/-! ### Claim C3 -/

/-- setStatus evaluated past its validation: success is decided only by the
existence of a document with the requested id owned by the acting
therapist. -/
theorem setStatus_eval (st : Ledger) (i actor : Nat) (s : Status)
    (notes cr : Option String) (hv : validSetStatus s notes cr = true) :
    setStatus st i actor s notes cr =
      if st.appts.any (statusMatch i actor) then Except.ok { st with appts := updateFirst (statusMatch i actor) (applyStatusUpdate s notes cr) st.appts } else Except.error ApiErr.notFound := by
  unfold setStatus
  rw [hv]
  simp

/-- C3 counterexample: the provider status-set applied to a cancelled
appointment does not fail with InvalidTransition — it succeeds and
overwrites the terminal status with confirmed. -/
theorem C3_counterexample :
    stCancelled.appts.map (fun a => a.status) = [Status.cancelled] ∧
    (setStatus stCancelled 0 1 Status.confirmed none none).isOk = true ∧
    ((stCancelled.apply ts0
        (Op.setStatus 0 1 Status.confirmed none none)).appts.map
      (fun a => a.status)) = [Status.confirmed] := by
  refine ⟨by decide, by decide, by decide⟩

/-- C3 (amended): the provider status-set succeeds exactly when an
appointment with the requested id exists and belongs to the acting
provider, regardless of its current status — terminal statuses included;
on success the first matching appointment's status is overwritten with the
requested status. -/
theorem C3_setStatus_unconditional (st : Ledger) (i actor : Nat)
    (s : Status) (notes cr : Option String)
    (hv : validSetStatus s notes cr = true) :
    ((setStatus st i actor s notes cr).isOk = true ↔
      ∃ a ∈ st.appts, a.id = i ∧ a.therapist = actor) ∧
    (∀ l1 a l2, st.appts = l1 ++ a :: l2 →
      (∀ b ∈ l1, statusMatch i actor b = false) →
      statusMatch i actor a = true →
      ∃ st2, setStatus st i actor s notes cr = Except.ok st2 ∧
        st2.appts = l1 ++ applyStatusUpdate s notes cr a :: l2 ∧
        (applyStatusUpdate s notes cr a).status = s) := by
  constructor
  · rw [setStatus_eval st i actor s notes cr hv]
    by_cases hany : st.appts.any (statusMatch i actor) = true
    · rw [if_pos hany]
      simp only [Except.isOk]
      constructor
      · intro _
        rcases List.any_eq_true.mp hany with ⟨a, ha, hpa⟩
        exact ⟨a, ha, (statusMatch_iff i actor a).mp hpa⟩
      · intro _
        rfl
    · rw [if_neg hany]
      simp only [Except.isOk]
      constructor
      · intro hco
        simp [Except.toBool] at hco
      · intro ⟨a, ha, hp1, hp2⟩
        exact absurd
          (List.any_eq_true.mpr
            ⟨a, ha, (statusMatch_iff i actor a).mpr ⟨hp1, hp2⟩⟩) hany
  · intro l1 a l2 hdec hpre hpa
    have hany : st.appts.any (statusMatch i actor) = true := by
      rw [hdec]
      exact List.any_eq_true.mpr ⟨a, by simp, hpa⟩
    rw [setStatus_eval st i actor s notes cr hv, if_pos hany]
    refine ⟨_, rfl, ?_, rfl⟩
    dsimp only
    rw [hdec, updateFirst_append _ _ _ _ _ hpre hpa]

/-- C3 witness: the amended characterization applied at a concrete ledger,
setting a cancelled appointment to completed. -/
theorem C3_setStatus_unconditional_witness :
    validSetStatus Status.completed none none = true ∧
    (setStatus stCancelled 0 1 Status.completed none none).isOk = true := by
  refine ⟨by decide, ?_⟩
  have h :=
    (C3_setStatus_unconditional stCancelled 0 1 Status.completed none none
      (by decide)).1
  exact h.mpr ⟨fixtureAppt 0 Status.cancelled, by simp [stCancelled],
    by decide, by decide⟩

/-! ### Claim C4 -/

/-- C4: the client cancellation succeeds exactly when an appointment with
the requested id, owned by the requesting client, is currently pending or
confirmed; on success the first such appointment's status becomes
cancelled and nothing else changes; on failure (terminal current status or
no such document) the ledger is unchanged. -/
theorem C4_cancel (ts : List Therapist) (st : Ledger) (i u : Nat) :
    ((cancel st i u).isOk = true ↔
      ∃ a ∈ st.appts, a.id = i ∧ a.user = u ∧
        (a.status = Status.pending ∨ a.status = Status.confirmed)) ∧
    (∀ l1 a l2, st.appts = l1 ++ a :: l2 →
      (∀ b ∈ l1, cancelMatch i u b = false) → cancelMatch i u a = true →
      ∃ st2, cancel st i u = Except.ok st2 ∧
        st2.appts = l1 ++ { a with status := Status.cancelled } :: l2) ∧
    ((cancel st i u).isOk = false → st.apply ts (Op.cancel i u) = st) := by
  refine ⟨?_, ?_, ?_⟩
  · constructor
    · intro hOk
      have hany : st.appts.any (cancelMatch i u) = true := by
        by_contra hany
        rw [Bool.not_eq_true] at hany
        unfold cancel at hOk
        rw [hany] at hOk
        simp [Except.isOk, Except.toBool] at hOk
      rcases List.any_eq_true.mp hany with ⟨a, ha, hpa⟩
      exact ⟨a, ha, (cancelMatch_iff i u a).mp hpa⟩
    · intro ⟨a, ha, hp⟩
      have hany := List.any_eq_true.mpr ⟨a, ha, (cancelMatch_iff i u a).mpr hp⟩
      unfold cancel
      rw [if_pos hany]
      rfl
  · intro l1 a l2 hdec hpre hpa
    have hany : st.appts.any (cancelMatch i u) = true := by
      rw [hdec]
      exact List.any_eq_true.mpr ⟨a, by simp, hpa⟩
    unfold cancel
    rw [if_pos hany]
    refine ⟨_, rfl, ?_⟩
    dsimp only
    rw [hdec, updateFirst_append _ _ _ _ _ hpre hpa]
  · intro hnk
    cases hc : cancel st i u with
    | ok st2 =>
      rw [hc] at hnk
      simp [Except.isOk, Except.toBool] at hnk
    | error e => simp [Ledger.apply, hc]

/-- C4 witness: cancelling a pending appointment succeeds; cancelling an
already cancelled one fails. -/
theorem C4_cancel_witness :
    (cancel stPending 0 7).isOk = true ∧
    (cancel stCancelled 0 7).isOk = false := by
  constructor
  · exact (C4_cancel ts0 stPending 0 7).1.mpr
      ⟨fixtureAppt 0 Status.pending, by simp [stPending], by decide,
        by decide, Or.inl rfl⟩
  · by_contra hcon
    rw [Bool.not_eq_false] at hcon
    rcases (C4_cancel ts0 stCancelled 0 7).1.mp hcon with ⟨a, ha, _h1, _h2, h3⟩
    have ha2 : a = fixtureAppt 0 Status.cancelled := by
      simpa [stCancelled] using ha
    subst ha2
    rcases h3 with h3 | h3 <;> exact absurd h3 (by decide)

/-! ### Claim C5 -/

/-- C5: review submission on an owned appointment succeeds exactly when the
appointment is completed and the rating is an integer in [1, 5]; on
success rating and review are set on the first match and its status — and
everything else — is untouched; otherwise the ledger is unchanged. -/
theorem C5_submitReview (ts : List Therapist) (st : Ledger)
    (i u rating : Nat) (rv : Option String)
    (hrv : reviewTextOk rv = true) :
    ((submitReview st i u rating rv).isOk = true ↔
      1 ≤ rating ∧ rating ≤ 5 ∧
        ∃ a ∈ st.appts, a.id = i ∧ a.user = u ∧
          a.status = Status.completed) ∧
    (∀ l1 a l2, st.appts = l1 ++ a :: l2 →
      (∀ b ∈ l1, reviewMatch i u b = false) → reviewMatch i u a = true →
      1 ≤ rating → rating ≤ 5 →
      ∃ st2, submitReview st i u rating rv = Except.ok st2 ∧
        st2.appts =
          l1 ++ { a with rating := some rating, review := rv } :: l2 ∧
        ({ a with rating := some rating, review := rv } : Appointment).status
          = a.status) ∧
    ((submitReview st i u rating rv).isOk = false →
      st.apply ts (Op.review i u rating rv) = st) := by
  refine ⟨?_, ?_, ?_⟩
  · constructor
    · intro hOk
      cases hs : submitReview st i u rating rv with
      | error e =>
        rw [hs] at hOk
        simp [Except.isOk, Except.toBool] at hOk
      | ok st2 =>
        obtain ⟨hval, hany, -⟩ := submitReview_ok_shape hs
        rw [validReview, Bool.and_eq_true, Bool.and_eq_true] at hval
        rcases List.any_eq_true.mp hany with ⟨a, ha, hpa⟩
        exact ⟨by simpa using hval.1.1, by simpa using hval.1.2,
          a, ha, (reviewMatch_iff i u a).mp hpa⟩
    · intro ⟨h1, h2, a, ha, hp⟩
      have hval : validReview rating rv = true := by
        rw [validReview]
        simp [h1, h2, hrv]
      have hany := List.any_eq_true.mpr ⟨a, ha, (reviewMatch_iff i u a).mpr hp⟩
      unfold submitReview
      rw [hval]
      simp only [not_true, if_false, Bool.true_eq_false, if_pos hany]
      rfl
  · intro l1 a l2 hdec hpre hpa h1 h2
    have hval : validReview rating rv = true := by
      rw [validReview]
      simp [h1, h2, hrv]
    have hany : st.appts.any (reviewMatch i u) = true := by
      rw [hdec]
      exact List.any_eq_true.mpr ⟨a, by simp, hpa⟩
    unfold submitReview
    rw [hval]
    simp only [not_true, if_false, Bool.true_eq_false, if_pos hany]
    refine ⟨_, rfl, ?_, by trivial⟩
    dsimp only
    rw [hdec, updateFirst_append _ _ _ _ _ hpre hpa]
  · intro hnk
    cases hc : submitReview st i u rating rv with
    | ok st2 =>
      rw [hc] at hnk
      simp [Except.isOk, Except.toBool] at hnk
    | error e => simp [Ledger.apply, hc]

/-- C5 witness: rating 5 on a completed appointment succeeds; the same
request on a pending appointment fails with the uniform not-found error. -/
theorem C5_submitReview_witness :
    (submitReview stCompleted 0 7 5 none).isOk = true ∧
    (submitReview stPending 0 7 5 none).isOk = false := by
  constructor
  · exact (C5_submitReview ts0 stCompleted 0 7 5 none (by decide)).1.mpr
      ⟨by decide, by decide, fixtureAppt 0 Status.completed,
        by simp [stCompleted], by decide, by decide, rfl⟩
  · by_contra hcon
    rw [Bool.not_eq_false] at hcon
    rcases (C5_submitReview ts0 stPending 0 7 5 none (by decide)).1.mp hcon
      with ⟨-, -, a, ha, -, -, h3⟩
    have ha2 : a = fixtureAppt 0 Status.pending := by
      simpa [stPending] using ha
    subst ha2
    exact absurd h3 (by decide)

/-! ### Claim C2 -/

/-- book evaluated past its preconditions: with a valid request and an
active verified therapist, the outcome is SlotConflict exactly when the
conflict filter matches some persisted appointment. -/
theorem book_conflict_eval {ts : List Therapist} {st : Ledger} {r : BookReq}
    {t : Therapist}
    (hval : validBookReq r = true)
    (hfind : ts.find? (fun x => x.id == r.therapistId) = some t)
    (hact : t.isActive = true) (hver : t.isVerified = true) :
    book ts st r = Except.error BookErr.slotConflict ↔
      st.appts.any (conflictsWith r.therapistId r.date
        (r.startH * 60 + r.startM)
        (r.startH * 60 + r.startM + r.duration)) = true := by
  unfold book
  rw [hval]
  rw [if_neg (by simp : ¬¬(true = true))]
  rw [hfind]
  dsimp only
  rw [hact, hver]
  rw [if_neg (by simp : ¬¬((true && true) = true))]
  by_cases hc : st.appts.any (conflictsWith r.therapistId r.date
      (r.startH * 60 + r.startM)
      (r.startH * 60 + r.startM + r.duration)) = true
  · rw [if_pos hc]
    simp [hc]
  · rw [if_neg hc]
    simp [hc]

/-- C2 counterexample: st1 persists the pending appointment
[540, 600) = [09:00, 10:00) for therapist 1 on d0; the claim's formula
declares the disjoint request [660, 720) = [11:00, 12:00) overlapping
(540 < 720 AND 720 > 540), yet book succeeds, so "fails iff some existing
appointment overlaps" is false under that formula. -/
theorem C2_counterexample :
    st1.appts.map
      (fun a => (a.therapist, a.date, a.startTime, a.endTime, a.status)) =
      [(1, d0, 540, 600, Status.pending)] ∧
    overlapsClaimC2 540 600 660 720 ∧
    (book ts0 st1 (mkReq 11 0 60)).isOk = true := by
  refine ⟨by decide, ⟨by norm_num, by norm_num⟩, by decide⟩

/-- C2 (amended): with a valid request and an active verified therapist,
book fails with SlotConflict — writing nothing — if and only if some
existing appointment for the same provider and date with status in
{pending, confirmed} overlaps the requested half-open interval, where
overlap means aStart < bEnd AND aEnd > bStart (the claim's formula
"aStart < bEnd AND bEnd > aStart" merely restates its first conjunct; it
is refuted by the counterexample, while back-to-back slots still do not
overlap under the corrected formula). -/
theorem C2_slotConflict_iff {ts : List Therapist} {st : Ledger}
    {r : BookReq} {t : Therapist}
    (hval : validBookReq r = true)
    (hfind : ts.find? (fun x => x.id == r.therapistId) = some t)
    (hact : t.isActive = true) (hver : t.isVerified = true) :
    (book ts st r = Except.error BookErr.slotConflict ↔
      ∃ a ∈ st.appts, a.therapist = r.therapistId ∧ a.date = r.date ∧
        (a.status = Status.pending ∨ a.status = Status.confirmed) ∧
        overlaps a.startTime a.endTime (r.startH * 60 + r.startM)
          (r.startH * 60 + r.startM + r.duration)) ∧
    (book ts st r = Except.error BookErr.slotConflict →
      st.apply ts (Op.book r) = st) := by
  constructor
  · rw [book_conflict_eval hval hfind hact hver, List.any_eq_true]
    constructor
    · intro ⟨a, ha, hc⟩
      exact ⟨a, ha, (conflictsWith_iff _ _ _ _ a).mp hc⟩
    · intro ⟨a, ha, hc⟩
      exact ⟨a, ha, (conflictsWith_iff _ _ _ _ a).mpr hc⟩
  · intro herr
    exact book_err_spec herr

/-- C2 witness: after booking [09:00, 10:00), requesting [09:30, 10:30)
fails with SlotConflict while the back-to-back [10:00, 11:00) succeeds. -/
theorem C2_slotConflict_iff_witness :
    book ts0 st1 (mkReq 9 30 60) = Except.error BookErr.slotConflict ∧
    (book ts0 st1 (mkReq 10 0 60)).isOk = true := by
  constructor
  · refine ((@C2_slotConflict_iff ts0 st1
      (mkReq 9 30 60) ther1 (by decide) rfl rfl rfl).1).mpr ?_
    have hst : st1.appts = [bookedAppt] := rfl
    refine ⟨bookedAppt, ?_, by decide, by decide, Or.inl (by decide),
      by decide, by decide⟩
    rw [hst]
    exact List.mem_cons_self _ _
  · decide

/-! ### Claim C6 -/

/-- C6: every successful booking persists
amount = provider.hourlyRate / 60 * duration, computed at creation from the
therapist document it looked up; with the schema's hourlyRate ≥ 0 the
amount is non-negative. -/
theorem C6_amount {ts : List Therapist} {st : Ledger} {r : BookReq}
    {st2 : Ledger} {a : Appointment} {t : Therapist}
    (hb : book ts st r = Except.ok (st2, a))
    (hfind : ts.find? (fun x => x.id == r.therapistId) = some t)
    (hrate : 0 ≤ t.hourlyRate) :
    a.amount = t.hourlyRate / 60 * (r.duration : ℚ) ∧ 0 ≤ a.amount := by
  obtain ⟨-, -, -, -, -, -, -, -, -, -, -, t2, hfind2, -, -, hamt⟩ :=
    book_ok_spec hb
  rw [hfind] at hfind2
  injection hfind2 with ht
  subst ht
  rw [hamt]
  refine ⟨rfl, ?_⟩
  exact mul_nonneg (div_nonneg hrate (by norm_num)) (by positivity)

/-- The appointment a successful booking of 30 minutes at 09:00 with
therapist 1 creates. -/
def a930 : Appointment :=
  { id := 0, user := 7, therapist := 1, date := d0, startTime := 540,
    endTime := 570, endTimeStr := fmtTime 570, duration := 30,
    sessionType := SessionType.individual, sessionMode := SessionMode.video,
    notes := none, amount := (90 : ℚ) / 60 * ((30 : ℕ) : ℚ),
    status := Status.pending, rating := none, review := none,
    cancellationReason := none }

/-- C6 witness: hourlyRate 90 with duration 30 yields amount 45 ≥ 0. -/
theorem C6_amount_witness :
    book ts0 Ledger.init (mkReq 9 0 30) =
      Except.ok ({ appts := [a930], nextId := 1 }, a930) ∧
    a930.amount = 45 ∧ 0 ≤ a930.amount := by
  have hb : book ts0 Ledger.init (mkReq 9 0 30) =
      Except.ok ({ appts := [a930], nextId := 1 }, a930) := rfl
  have h := @C6_amount ts0 Ledger.init (mkReq 9 0 30) _ _ ther1 hb rfl
    (by norm_num [ther1])
  refine ⟨hb, ?_, h.2⟩
  rw [h.1]
  norm_num [ther1, mkReq]

/-! ### Claim C10 -/

/-- C10: a valid conflict-free booking request whose start plus duration
reaches or passes midnight is neither rejected nor wrapped: it succeeds,
the persisted end minute equals startMinutes + duration ≥ 1440, and the
persisted endTime string carries an hour field of 24 or more — not a valid
same-day wall-clock time of day. -/
theorem C10_crossMidnight {ts : List Therapist} {st : Ledger} {r : BookReq}
    {t : Therapist}
    (hval : validBookReq r = true)
    (hfind : ts.find? (fun x => x.id == r.therapistId) = some t)
    (hact : t.isActive = true) (hver : t.isVerified = true)
    (hnoc : st.appts.any (conflictsWith r.therapistId r.date
      (r.startH * 60 + r.startM)
      (r.startH * 60 + r.startM + r.duration)) = false)
    (hmid : 1440 ≤ r.startH * 60 + r.startM + r.duration) :
    ∃ st2 a, book ts st r = Except.ok (st2, a) ∧
      a.endTime = r.startH * 60 + r.startM + r.duration ∧
      24 ≤ a.endTime / 60 ∧
      a.endTimeStr = pad2 (a.endTime / 60) ++ ":" ++ pad2 (a.endTime % 60) := by
  unfold book
  rw [hval]
  rw [if_neg (by simp : ¬¬(true = true))]
  rw [hfind]
  dsimp only
  rw [hact, hver]
  rw [if_neg (by simp : ¬¬((true && true) = true))]
  rw [hnoc]
  rw [if_neg (by simp : ¬(false = true))]
  refine ⟨_, _, rfl, rfl, ?_, rfl⟩
  exact (by omega : 24 ≤ (r.startH * 60 + r.startM + r.duration) / 60)

/-- C10 witness: startTime 23:00 with duration 120 books successfully and
persists the endTime string "25:00". -/
theorem C10_crossMidnight_witness :
    ∃ st2 a, book ts0 Ledger.init (mkReq 23 0 120) = Except.ok (st2, a) ∧
      a.endTime = 1500 ∧ a.endTimeStr = "25:00" := by
  obtain ⟨st2, a, hb, he, -, hs⟩ :=
    @C10_crossMidnight ts0 Ledger.init (mkReq 23 0 120)
      ther1 (by decide) rfl rfl rfl (by decide) (by decide)
  have he2 : a.endTime = 1500 := he.trans (by decide)
  refine ⟨st2, a, hb, he2, ?_⟩
  rw [hs, he2]
  decide

/-! ### Claim C7 -/

/-- The booked-start-times list of availableSlots mentions m exactly when
some pending/confirmed appointment of that therapist and date starts
at m. -/
theorem bookedStarts_iff (st : Ledger) (tid : Nat) (d : Day) (m : Nat) :
    ((st.appts.filter
        (fun a => a.therapist == tid && a.date == d &&
          isActiveStatus a.status)).map (fun a => a.startTime)).contains m
      = true ↔
    ∃ a ∈ st.appts, a.therapist = tid ∧ a.date = d ∧
      (a.status = Status.pending ∨ a.status = Status.confirmed) ∧
      a.startTime = m := by
  simp only [List.contains, List.elem_iff, List.mem_map, List.mem_filter,
    Bool.and_eq_true, beq_iff_eq, isActiveStatus, Bool.or_eq_true]
  constructor
  · rintro ⟨a, ⟨ha, ⟨h1, h2⟩, h3⟩, h4⟩
    exact ⟨a, ha, h1, h2, h3, h4⟩
  · rintro ⟨a, ha, h1, h2, h3, h4⟩
    exact ⟨a, ⟨ha, ⟨h1, h2⟩, h3⟩, h4⟩

/-- C7: with an existing therapist, availableSlots returns exactly the
one-hour slots on the 09:00-18:00 hourly grid whose start time does not
match the start time of any pending/confirmed appointment of that
therapist and date, in ascending order of start time; consequently a fully
booked 09:00-18:00 day yields the empty sequence. -/
theorem C7_availableSlots (ts : List Therapist) (st : Ledger) (tid : Nat)
    (d : Day) (t : Therapist)
    (hfind : ts.find? (fun x => x.id == tid) = some t) :
    ∃ slots, availableSlots ts st tid d = Except.ok slots ∧
      (∀ s e : Nat, (s, e) ∈ slots ↔
        (∃ h, 9 ≤ h ∧ h < 18 ∧ s = h * 60 ∧ e = (h + 1) * 60) ∧
          ¬ ∃ a ∈ st.appts, a.therapist = tid ∧ a.date = d ∧
            (a.status = Status.pending ∨ a.status = Status.confirmed) ∧
            a.startTime = s) ∧
      slots.Pairwise (fun x y => x.1 < y.1) ∧
      ((∀ h : Nat, 9 ≤ h → h < 18 →
          ∃ a ∈ st.appts, a.therapist = tid ∧ a.date = d ∧
            (a.status = Status.pending ∨ a.status = Status.confirmed) ∧
            a.startTime = h * 60) → slots = []) := by
  unfold availableSlots
  rw [hfind]
  dsimp only
  refine ⟨_, rfl, ?_, ?_, ?_⟩
  · intro s e
    simp only [List.mem_map, List.mem_filter, List.mem_range'_1,
      Bool.not_eq_true', Prod.mk.injEq]
    constructor
    · rintro ⟨h, ⟨⟨hge, hlt⟩, hp⟩, hs, he⟩
      refine ⟨⟨h, hge, by omega, hs.symm, he.symm⟩, ?_⟩
      intro hex
      rw [← hs] at hex
      rw [← bookedStarts_iff st tid d (h * 60)] at hex
      rw [hp] at hex
      exact Bool.false_ne_true hex
    · rintro ⟨⟨h, hge, hlt, hs, he⟩, hnex⟩
      refine ⟨h, ⟨⟨hge, by omega⟩, ?_⟩, hs.symm, he.symm⟩
      rw [← Bool.not_eq_true]
      intro hcon
      exact hnex (hs ▸ (bookedStarts_iff st tid d (h * 60)).mp hcon)
  · refine List.pairwise_map.mpr ?_
    refine List.Pairwise.filter _ ?_
    exact (by decide : List.Pairwise (fun a b => a * 60 < b * 60)
      (List.range' 9 9))
  · intro hall
    rw [List.map_eq_nil_iff, List.filter_eq_nil_iff]
    intro h hh
    rw [List.mem_range'_1] at hh
    have hb := (bookedStarts_iff st tid d (h * 60)).mpr
      (hall h hh.1 (by omega))
    rw [hb]
    simp

/-- A fully booked day: pending appointments at 09:00 through 17:00. -/
def stFull : Ledger :=
  { appts := (List.range' 9 9).map
      (fun h => { fixtureAppt h Status.pending with
        startTime := h * 60, endTime := (h + 1) * 60 }),
    nextId := 9 }

/-- C7 witness: on the fully booked day the characterization applies and
the returned sequence is empty; on st1 (only [09:00, 10:00) booked) the
slot (540, 600) is excluded while (600, 660) is offered. -/
theorem C7_availableSlots_witness :
    availableSlots ts0 stFull 1 d0 = Except.ok [] ∧
    availableSlots ts0 st1 1 d0 =
      Except.ok ((List.range' 10 8).map (fun h => (h * 60, (h + 1) * 60))) := by
  constructor
  · obtain ⟨slots, hok, -, -, hfull⟩ :=
      C7_availableSlots ts0 stFull 1 d0 ther1 rfl
    rw [hok]
    rw [hfull ?_]
    intro h h9 h18
    refine ⟨{ fixtureAppt h Status.pending with
        startTime := h * 60, endTime := (h + 1) * 60 }, ?_, rfl, rfl,
      Or.inl rfl, rfl⟩
    exact List.mem_map.mpr ⟨h, List.mem_range'_1.mpr ⟨h9, by omega⟩, rfl⟩
  · rfl

/-! ### Claim C8 -/

theorem Day.leb_iff (a b : Day) :
    a.leb b = true ↔
      a.y < b.y ∨ (a.y = b.y ∧ (a.m < b.m ∨ (a.m = b.m ∧ a.d ≤ b.d))) := by
  simp [Day.leb]

theorem Day.leb_trans {a b c : Day} (h1 : a.leb b = true)
    (h2 : b.leb c = true) : a.leb c = true := by
  rw [Day.leb_iff] at *
  omega

theorem Day.leb_total (a b : Day) : a.leb b = true ∨ b.leb a = true := by
  rw [Day.leb_iff, Day.leb_iff]
  omega

/-- Mapping then testing all elements, without the same-type restriction of
the library lemma. -/
theorem all_map_gen {α β : Type} (f : α → β) (p : β → Bool) (l : List α) :
    (l.map f).all p = l.all (fun a => p (f a)) := by
  induction l with
  | nil => rfl
  | cons a l ih => simp [ih]

/-- The start date is ≤ the folded minimum of a bag of dates exactly when
it is ≤ every date in the bag. -/
theorem leb_minDay (s x : Day) (ds : List Day) :
    s.leb (minDay x ds) = (s.leb x && ds.all (fun d => s.leb d)) := by
  induction ds generalizing x with
  | nil => simp [minDay]
  | cons d ds ih =>
    rw [show minDay x (d :: ds) = minDay (if d.leb x then d else x) ds
      from rfl]
    rw [ih, List.all_cons]
    by_cases hdx : d.leb x = true
    · rw [if_pos hdx]
      cases hsd : s.leb d
      · simp
      · have hsx : s.leb x = true := Day.leb_trans hsd hdx
        rw [hsx]
        simp
    · rw [if_neg hdx]
      have hxd : x.leb d = true := by
        rcases Day.leb_total d x with h | h
        · exact absurd h hdx
        · exact h
      cases hsx : s.leb x
      · simp
      · have hsd : s.leb d = true := Day.leb_trans hsx hxd
        rw [hsd]
        simp

/-- For a client with at least one appointment, the $min-based window test
is the same as requiring every appointment date ≥ startDate (the window
has no upper bound). -/
theorem minDateOk_all (l : List Appointment) (c : Nat) (s : Day)
    (hne : l.filter (fun a => a.user == c) ≠ []) :
    minDateOk l c s =
      (l.filter (fun a => a.user == c)).all (fun a => s.leb a.date) := by
  unfold minDateOk firstApptDay
  cases hf : l.filter (fun a => a.user == c) with
  | nil => exact absurd hf hne
  | cons a rest =>
    dsimp only [List.map]
    rw [leb_minDay, List.all_cons, all_map_gen]

/-- A client appearing in the provider's window has at least one
appointment in the whole ledger. -/
theorem filter_user_ne_nil {l : List Appointment} {tid : Nat} {start : Day}
    {c : Nat} (hc : c ∈ clientIdsOf (apptsInRange l tid start)) :
    l.filter (fun a => a.user == c) ≠ [] := by
  unfold clientIdsOf at hc
  rw [List.mem_dedup, List.mem_map] at hc
  rcases hc with ⟨a, ha, hac⟩
  unfold apptsInRange at ha
  have hal : a ∈ l := (List.mem_filter.mp ha).1
  exact List.ne_nil_of_mem
    (List.mem_filter.mpr ⟨hal, by simp [hac]⟩)

/-- A completed appointment of client 7 with the given id, therapist and
date. -/
def apptC8 (i tid : Nat) (dte : Day) : Appointment :=
  { fixtureAppt i Status.completed with therapist := tid, date := dte }

def dJan (dd : Nat) : Day := { y := 2025, m := 1, d := dd }

/-- Client 7 saw therapist 2 on Jan 5 and therapist 1 on Jan 15. -/
def ledC8 : List Appointment := [apptC8 0 2 (dJan 5), apptC8 1 1 (dJan 15)]

/-- C8 counterexample: for therapist 1's analytics with window start
Jan 10, the claim makes client 7 new (their earliest appointment with THIS
provider, Jan 15, is inside the window), but the code reports 0 new
clients: its aggregation has no therapist filter, so the Jan 5 appointment
with therapist 2 drags the client's earliest-ever date before the
window. -/
theorem C8_counterexample :
    (clientStats ledC8 1 (dJan 10)).totalClients = 1 ∧
    (clientStats ledC8 1 (dJan 10)).newClients = 0 ∧
    (newClientsPerClaimC8 ledC8 1 (dJan 10)).length = 1 := by
  refine ⟨by decide, by decide, by decide⟩

/-- C8 (amended): the reported new-client count equals the number of
distinct in-window clients all of whose appointments — with any provider,
over the whole ledger — lie inside the (upper-unbounded) window, i.e.
whose earliest-ever appointment with any provider falls inside the window;
the returning-client count is the distinct count minus the new count. -/
theorem C8_clientStats (l : List Appointment) (tid : Nat) (start : Day) :
    (clientStats l tid start).totalClients =
      (clientIdsOf (apptsInRange l tid start)).length ∧
    (clientStats l tid start).newClients =
      ((clientIdsOf (apptsInRange l tid start)).filter
        (fun c => (l.filter (fun a => a.user == c)).all
          (fun a => start.leb a.date))).length ∧
    (clientStats l tid start).returningClients =
      (clientStats l tid start).totalClients -
        (clientStats l tid start).newClients := by
  refine ⟨rfl, ?_, rfl⟩
  unfold clientStats newClients
  dsimp only
  congr 1
  apply List.filter_congr
  intro c hc
  exact minDateOk_all l c start (filter_user_ne_nil hc)

/-! ### Claim C9 -/

theorem mapSet_cons_pos {K V : Type} [BEq K] (k1 : K) (v1 : V)
    (rest : List (K × V)) (k : K) (v : V) (h : (k1 == k) = true) :
    mapSet ((k1, v1) :: rest) k v = (k1, v) :: rest := by
  simp [mapSet, h]

theorem mapSet_cons_neg {K V : Type} [BEq K] (k1 : K) (v1 : V)
    (rest : List (K × V)) (k : K) (v : V) (h : (k1 == k) = false) :
    mapSet ((k1, v1) :: rest) k v = (k1, v1) :: mapSet rest k v := by
  simp [mapSet, h]

theorem mapGetD_cons_pos {K V : Type} [BEq K] (k1 : K) (v1 : V)
    (rest : List (K × V)) (k : K) (d : V) (h : (k1 == k) = true) :
    mapGetD ((k1, v1) :: rest) k d = v1 := by
  unfold mapGetD
  rw [@List.find?_cons_of_pos _ (fun p => p.1 == k) (k1, v1) rest h]

theorem mapGetD_cons_neg {K V : Type} [BEq K] (k1 : K) (v1 : V)
    (rest : List (K × V)) (k : K) (d : V) (h : (k1 == k) = false) :
    mapGetD ((k1, v1) :: rest) k d = mapGetD rest k d := by
  unfold mapGetD
  rw [@List.find?_cons_of_neg _ (fun p => p.1 == k) (k1, v1) rest
    (by rw [show ((fun p : K × V => p.1 == k) (k1, v1)) = false from h]
        exact Bool.false_ne_true)]

/-- One Map.set step of the earnings accumulation adds exactly the new
amount to the total of the map's values. -/
theorem sum_mapSet {K : Type} [DecidableEq K] (m : List (K × ℚ)) (k : K)
    (v : ℚ) :
    ((mapSet m k (mapGetD m k 0 + v)).map (fun x => x.2)).sum =
      ((m.map (fun x => x.2)).sum) + v := by
  induction m with
  | nil => simp [mapSet, mapGetD]
  | cons p rest ih =>
    obtain ⟨k1, v1⟩ := p
    by_cases hk : (k1 == k) = true
    · rw [mapGetD_cons_pos k1 v1 rest k 0 hk, mapSet_cons_pos k1 v1 rest k _ hk]
      simp only [List.map_cons, List.sum_cons]
      ring
    · have hk2 : (k1 == k) = false := by rwa [Bool.not_eq_true] at hk
      rw [mapGetD_cons_neg k1 v1 rest k 0 hk2,
        mapSet_cons_neg k1 v1 rest k _ hk2]
      simp only [List.map_cons, List.sum_cons]
      rw [ih]
      ring

/-- Folding the conditional bucket accumulation over a list adds the total
completed amount of the list to the map's value total. -/
theorem sum_buildFold {K : Type} [DecidableEq K] (key : Appointment → K)
    (l : List Appointment) (m : List (K × ℚ)) :
    ((l.foldl (fun m2 a =>
        if a.status == Status.completed then
          mapSet m2 (key a) (mapGetD m2 (key a) 0 + a.amount)
        else m2) m).map (fun x => x.2)).sum =
      ((m.map (fun x => x.2)).sum) +
        ((l.filter (fun a => a.status == Status.completed)).map
          (fun a => a.amount)).sum := by
  induction l generalizing m with
  | nil => simp
  | cons a rest ih =>
    rw [List.foldl_cons]
    by_cases hc : (a.status == Status.completed) = true
    · rw [if_pos hc, ih, sum_mapSet, List.filter_cons, if_pos hc,
        List.map_cons, List.sum_cons]
      ring
    · rw [if_neg hc, ih, List.filter_cons, if_neg hc]

/-- As sum_buildFold, for the unconditional accumulation over an already
filtered list (the platform-wide $group). -/
theorem sum_mapSetFold {K : Type} [DecidableEq K] (key : Appointment → K)
    (l : List Appointment) (m : List (K × ℚ)) :
    ((l.foldl (fun m2 a =>
        mapSet m2 (key a) (mapGetD m2 (key a) 0 + a.amount)) m).map
      (fun x => x.2)).sum =
      ((m.map (fun x => x.2)).sum) + (l.map (fun a => a.amount)).sum := by
  induction l generalizing m with
  | nil => simp
  | cons a rest ih =>
    rw [List.foldl_cons, ih, sum_mapSet, List.map_cons, List.sum_cons]
    ring

/-- Sorting the bucket entries is a permutation, so it keeps the value
total. -/
theorem sum_insertionSort_snd {K : Type} (r : (K × ℚ) → (K × ℚ) → Prop)
    [DecidableRel r] (m : List (K × ℚ)) :
    ((m.insertionSort r).map (fun x => x.2)).sum =
      ((m.map (fun x => x.2)).sum) :=
  ((List.perm_insertionSort r m).map (fun x => x.2)).sum_eq

/-- C9: for every analytics request, the per-bucket earnings series sums to
the total amount over completed appointments in the window, and a window
with no appointments yields zero-length series rather than an error — for
both the provider-scope earnings and the platform-wide revenue series. -/
theorem C9_analytics_sums (l : List Appointment) (tid : Nat) (start : Day)
    (p : Period) :
    ((providerAnalytics l tid start p).earnings.data).sum =
      (((apptsInRange l tid start).filter
        (fun a => a.status == Status.completed)).map
        (fun a => a.amount)).sum ∧
    (apptsInRange l tid start = [] →
      (providerAnalytics l tid start p).earnings.labels = [] ∧
      (providerAnalytics l tid start p).earnings.data = [] ∧
      (providerAnalytics l tid start p).appointments.labels = [] ∧
      (providerAnalytics l tid start p).appointments.data = []) ∧
    (getRevenueData l start p).revenue.sum =
      ((l.filter (fun a => a.status == Status.completed &&
        start.leb a.date)).map (fun a => a.amount)).sum ∧
    (l.filter (fun a => start.leb a.date) = [] →
      (getRevenueData l start p).labels = [] ∧
      (getRevenueData l start p).revenue = [] ∧
      (getRevenueData l start p).appointments = []) := by
  refine ⟨?_, ?_, ?_, ?_⟩
  · unfold providerAnalytics toSeries buildEarnings
    dsimp only
    rw [sum_insertionSort_snd]
    have h := sum_buildFold (fun a => bucketLabel p a.date)
      (apptsInRange l tid start) []
    simpa using h
  · intro hemp
    unfold providerAnalytics toSeries buildEarnings buildApptCounts
    rw [hemp]
    exact ⟨rfl, rfl, rfl, rfl⟩
  · unfold getRevenueData
    dsimp only
    rw [sum_insertionSort_snd]
    have h := sum_mapSetFold (fun a => aggKeyOf p a.date)
      (l.filter (fun a => a.status == Status.completed && start.leb a.date))
      []
    simpa using h
  · intro hemp
    have hemp2 : l.filter
        (fun a => a.status == Status.completed && start.leb a.date) = [] := by
      rw [List.filter_eq_nil_iff] at hemp ⊢
      intro a ha hcon
      rw [Bool.and_eq_true] at hcon
      exact hemp a ha hcon.2
    unfold getRevenueData
    rw [hemp2]
    exact ⟨rfl, rfl, rfl⟩

/-- C9 witness: an empty window yields empty series, and on the concrete
two-appointment ledger the platform revenue series sums to the one
completed in-window amount, 90. -/
theorem C9_analytics_sums_witness :
    (providerAnalytics [] 1 (dJan 10) Period.month).earnings.labels = []
      ∧ (getRevenueData ledC8 (dJan 10) Period.month).revenue.sum = 90 := by
  constructor
  · exact ((C9_analytics_sums [] 1 (dJan 10) Period.month).2.1 rfl).1
  · rw [(C9_analytics_sums ledC8 1 (dJan 10) Period.month).2.2.1]
    norm_num [ledC8, apptC8, fixtureAppt, dJan, Day.leb, List.filter]

end MH
